import Mathlib

/-!
Shallow embedding of the Peregrine simulation engine's core data structures
(per-resource timelines, the content-addressed history store, the ungrounded
upstream resolver, initial-condition operations, the error accumulator and the
pass-through hasher), translated from the Rust sources, together with theorems
settling the specification claims about them.

Conventions:
  - `Duration` (hifitime TAI durations) is modelled as `Int`.
  - operation nodes (trait objects `&dyn Upstream` etc.) are abstracted to
    numeric identifiers; the engine never inspects them in the modelled code,
    it only stores and returns them.
  - `BTreeMap` is modelled as an association list kept sorted by strictly
    ascending key; `DashMap` is modelled the same way (its iteration order is
    irrelevant to the claims).
  - Rust code that can `panic!` / `unreachable!` / failed `assert!` is modelled
    in the `PanicOr` monad-like result type.
-/

set_option autoImplicit false

namespace Peregrine

/-- Result of running Rust code that may panic (`panic!`, `unreachable!`,
`assert!` failure, `Option::unwrap` on `None`, `todo!`). -/
inductive PanicOr (α : Type) where
  | panic
  | ok (a : α)
deriving DecidableEq, Repr

namespace PanicOr

variable {α β : Type}

def isOk : PanicOr α → Bool
  | .panic => false
  | .ok _ => true

def map (f : α → β) : PanicOr α → PanicOr β
  | .panic => .panic
  | .ok a => .ok (f a)

end PanicOr

/-- Internal durations: hifitime TAI durations, modelled as integers. -/
abbrev Duration := Int

/-- An operation node (`&'o dyn Upstream` / `&'o dyn UngroundedUpstream`),
abstracted to an identifier. -/
abbrev Writer := Nat

section OrderedMap

variable {κ : Type} [LinearOrder κ] {α : Type}

/-- `BTreeMap::insert`: insert into a key-sorted association list, replacing
the value when the key is already present. -/
def btInsert : List (κ × α) → κ → α → List (κ × α)
  | [], k, v => [(k, v)]
  | (k0, v0) :: rest, k, v =>
    if k < k0 then (k, v) :: (k0, v0) :: rest
    else if k = k0 then (k, v) :: rest
    else (k0, v0) :: btInsert rest k v

/-- `BTreeMap::get`: point lookup. -/
def btLookup : List (κ × α) → κ → Option α
  | [], _ => none
  | (k0, v0) :: rest, k => if k = k0 then some v0 else btLookup rest k

/-- `BTreeMap::remove` (the map part): drop the entry with the given key. -/
def btErase : List (κ × α) → κ → List (κ × α)
  | [], _ => []
  | (k0, v0) :: rest, k => if k = k0 then rest else (k0, v0) :: btErase rest k

/-- `BTreeMap::extend`: insert every pair of the second map into the first,
in the second map's iteration order, replacing on key collision. -/
def btExtend (m other : List (κ × α)) : List (κ × α) :=
  other.foldl (fun acc p => btInsert acc p.1 p.2) m

/-- `BTreeMap::range(..t)`: the entries with keys strictly below `t`,
in ascending key order (the list is kept sorted). -/
def btRangeLT (m : List (κ × α)) (t : κ) : List (κ × α) :=
  m.filter (fun p => p.1 < t)

/-- `BTreeMap::range(min..max)`: the entries with `min ≤ key < max`. -/
def btRangeCO (m : List (κ × α)) (min max : κ) : List (κ × α) :=
  m.filter (fun p => min ≤ p.1 && p.1 < max)

/-- Well-formedness of the association-list model of a `BTreeMap`:
keys strictly ascending. -/
abbrev btWF (m : List (κ × α)) : Prop :=
  m.Pairwise (fun p q => p.1 < q.1)

theorem btLookup_btInsert (m : List (κ × α)) (k : κ) (v : α) (k' : κ) :
    btLookup (btInsert m k v) k' = if k' = k then some v else btLookup m k' := by
  induction m with
  | nil =>
    simp [btInsert, btLookup]
  | cons hd tl ih =>
    obtain ⟨k0, v0⟩ := hd
    by_cases h1 : k < k0
    · simp [btInsert, btLookup, h1]
    · by_cases h2 : k = k0
      · subst h2
        by_cases h3 : k' = k <;> simp [btInsert, btLookup, h1, h3]
      · have h2' : ¬ (k' = k0 ∧ k' = k) := by
          rintro ⟨rfl, rfl⟩; exact h2 rfl
        by_cases h3 : k' = k0
        · subst h3
          have hne : ¬ k' = k := fun h => h2 h.symm
          simp [btInsert, btLookup, h1, h2, hne]
        · simp [btInsert, btLookup, h1, h2, h3, ih]

theorem btLookup_eq_none_of_forall (m : List (κ × α)) (k : κ)
    (h : ∀ p ∈ m, p.1 ≠ k) : btLookup m k = none := by
  induction m with
  | nil => rfl
  | cons hd tl ih =>
    obtain ⟨k0, v0⟩ := hd
    have hk : k ≠ k0 := fun he => (h (k0, v0) (by simp)) he.symm
    simp only [btLookup, if_neg hk]
    exact ih (fun p hp => h p (by simp [hp]))

theorem btLookup_btErase_self (m : List (κ × α)) (k : κ) (hwf : btWF m) :
    btLookup (btErase m k) k = none := by
  induction m with
  | nil => rfl
  | cons hd tl ih =>
    obtain ⟨k0, v0⟩ := hd
    rw [btWF, List.pairwise_cons] at hwf
    by_cases h : k = k0
    · subst h
      simp only [btErase, if_pos rfl]
      exact btLookup_eq_none_of_forall _ _ (fun p hp => ne_of_gt (hwf.1 p hp))
    · simp only [btErase, if_neg h, btLookup, if_neg h]
      exact ih hwf.2

theorem btLookup_btErase_ne (m : List (κ × α)) (k k' : κ) (h : k' ≠ k) :
    btLookup (btErase m k) k' = btLookup m k' := by
  induction m with
  | nil => rfl
  | cons hd tl ih =>
    obtain ⟨k0, v0⟩ := hd
    by_cases h0 : k = k0
    · subst h0
      simp [btErase, btLookup, h]
    · by_cases h1 : k' = k0
      · simp only [btErase, if_neg h0, btLookup, if_pos h1]
      · simp only [btErase, if_neg h0, btLookup, if_neg h1, ih]

end OrderedMap

/-! ## Per-resource timeline (src/peregrine/src/timeline.rs) -/

/-- `TimelineEntry`: a grounded writer (optional) and an ordered map from
max-time to ungrounded writer. -/
structure TimelineEntry where
  grounded : Option Writer
  ungrounded : List (Duration × Writer)
deriving DecidableEq, Repr

namespace TimelineEntry

def new_empty : TimelineEntry := ⟨none, []⟩

def new_grounded (gr : Writer) : TimelineEntry := ⟨some gr, []⟩

def new_ungrounded (ug : Writer) (max : Duration) : TimelineEntry := ⟨none, [(max, ug)]⟩

/-- `TimelineEntry::merge`. The Rust source opens with
`assert_ne!(self.grounded.is_some(), other.grounded.is_some())`, which panics
unless exactly one of the two entries has a grounded writer; then the grounded
field keeps `self`'s writer if present (else takes `other`'s) and the
ungrounded map is extended with all of `other`'s entries. -/
def merge (self other : TimelineEntry) : PanicOr TimelineEntry :=
  if self.grounded.isSome = other.grounded.isSome then .panic
  else
    .ok { grounded := match self.grounded with
            | some g => some g
            | none => other.grounded,
          ungrounded := btExtend self.ungrounded other.ungrounded }

/-- `TimelineEntry::into_upstream_vec`: the ungrounded writers in ascending
max-time order, followed by the grounded writer if present. -/
def into_upstream_vec (self : TimelineEntry) : List Writer :=
  self.ungrounded.map Prod.snd ++ self.grounded.toList

end TimelineEntry

/-- The loop's stopping condition in `Timeline::search_possible_upstreams`:
the accumulator's grounded writer is set, or its ungrounded map's first entry
(the one with the least max-time) has max-time at most the query time. -/
def stopCond (v : TimelineEntry) (time : Duration) : Bool :=
  v.grounded.isSome ||
    (match v.ungrounded.head? with
     | some p => decide (p.1 ≤ time)
     | none => false)

/-- The `loop` in `Timeline::search_possible_upstreams`, consuming the
entries with keys below the query time in descending key order
(`iter.next_back()`). Running out of entries makes the `?` operator return
`None` for the whole function. -/
def searchLoop (time : Duration) :
    List (Duration × TimelineEntry) → TimelineEntry →
    PanicOr (Option (Duration × TimelineEntry))
  | [], _ => .ok none
  | (t0, e) :: rest, acc =>
    match acc.merge e with
    | .panic => .panic
    | .ok acc' =>
      if stopCond acc' time then .ok (some (t0, acc'))
      else searchLoop time rest acc'

/-- `Timeline`: an ordered map from durations to timeline entries. -/
structure Timeline where
  entries : List (Duration × TimelineEntry)
deriving DecidableEq, Repr

namespace Timeline

/-- `Timeline::init`. -/
def init (time : Duration) (initial_condition : Writer) : Timeline :=
  ⟨[(time, TimelineEntry.new_grounded initial_condition)]⟩

/-- `Timeline::search_possible_upstreams`: walk the entries with keys strictly
below `time` from the greatest key downward, merging into an accumulator until
the stopping condition holds. -/
def search_possible_upstreams (tl : Timeline) (time : Duration) :
    PanicOr (Option (Duration × TimelineEntry)) :=
  searchLoop time (btRangeLT tl.entries time).reverse TimelineEntry.new_empty

/-- `Timeline::insert_grounded` (the non-nightly version): replace the entry
at the key by a fresh grounded-only entry, then rerun the search at that time
to collect the upstreams that may need downstream invalidation. -/
def insert_grounded (tl : Timeline) (time : Duration) (value : Writer) :
    PanicOr (Timeline × List Writer) :=
  let entries' := btInsert tl.entries time (TimelineEntry.new_grounded value)
  match searchLoop time (btRangeLT entries' time).reverse TimelineEntry.new_empty with
  | .panic => .panic
  | .ok r =>
    .ok (⟨entries'⟩, (r.map (fun p => p.2.into_upstream_vec)).getD [])

/-- `Timeline::remove_grounded`: remove the whole entry stored at the key,
returning whether one was present. -/
def remove_grounded (tl : Timeline) (time : Duration) : Timeline × Bool :=
  (⟨btErase tl.entries time⟩, (btLookup tl.entries time).isSome)

end Timeline

/-- The `for (_, e) in self.0.range_mut(min..max)` loop of
`Timeline::insert_ungrounded`: merge each visited entry into a collector
(whose grounded field is taken out after every step, pushing it to the result
list), in ascending key order. -/
def collectLoop : List (Duration × TimelineEntry) → TimelineEntry → List Writer →
    PanicOr (TimelineEntry × List Writer)
  | [], coll, res => .ok (coll, res)
  | (_, e) :: rest, coll, res =>
    match coll.merge e with
    | .panic => .panic
    | .ok coll' =>
      collectLoop rest { coll' with grounded := none }
        (res ++ coll'.grounded.toList)

namespace Timeline

/-- `Timeline::insert_ungrounded`: seed a new (grounded-less) entry at `min`
carrying `(max, value)` plus the still-reaching ungrounded writers of the
nearest entry below `min`; add `(max, value)` to every entry with key in
`[min, max)`; replace the entry at `min`; return the writers collected for
downstream invalidation. -/
def insert_ungrounded (tl : Timeline) (min max : Duration) (value : Writer) :
    PanicOr (Timeline × List Writer) :=
  let spanning :=
    ((btRangeLT tl.entries min).reverse.head?.map
      (fun p => p.2.ungrounded.filter (fun q => min < q.1))).getD []
  let entry : TimelineEntry := ⟨none, btExtend [(max, value)] spanning⟩
  match collectLoop (btRangeCO tl.entries min max) TimelineEntry.new_empty [] with
  | .panic => .panic
  | .ok (coll, res) =>
    let mutated := tl.entries.map (fun p =>
      if min ≤ p.1 ∧ p.1 < max then
        (p.1, { p.2 with ungrounded := btInsert p.2.ungrounded max value })
      else p)
    .ok (⟨btInsert mutated min entry⟩, res ++ coll.ungrounded.map Prod.snd)

/-- `Timeline::remove_ungrounded`: remove the entry at `min`; when one was
present, also remove key `max` from the ungrounded map of every entry with key
in `[min, max)`. -/
def remove_ungrounded (tl : Timeline) (min max : Duration) : Timeline × Bool :=
  if (btLookup tl.entries min).isSome then
    (⟨(btErase tl.entries min).map (fun p =>
        if min ≤ p.1 ∧ p.1 < max then
          (p.1, { p.2 with ungrounded := btErase p.2.ungrounded max })
        else p)⟩, true)
  else (tl, false)

end Timeline

/-! ### Specification-level reformulation of the point query

`searchSpecFrom` restates the walk of `search_possible_upstreams` the way the
(amended) specification describes it: among the prefixes of the descending
entry list, find the shortest one whose merged accumulator either hits the
merge assertion or satisfies the stopping condition; the query returns that
merged accumulator together with the key of the last entry merged. -/

/-- Merging a list of entries into an accumulator, with no stopping. -/
def mergeFold : TimelineEntry → List (Duration × TimelineEntry) → PanicOr TimelineEntry
  | acc, [] => .ok acc
  | acc, (_, e) :: rest =>
    match acc.merge e with
    | .panic => .panic
    | .ok acc' => mergeFold acc' rest

/-- Whether the walk is over after merging the first `n` entries: either the
merge assertion fired, or the merged accumulator satisfies the stopping
condition. -/
def stopsAt (time : Duration) (acc : TimelineEntry)
    (ds : List (Duration × TimelineEntry)) (n : Nat) : Bool :=
  match mergeFold acc (ds.take n) with
  | .panic => true
  | .ok v => stopCond v time

/-- The point query walk, reformulated: take the least `n ≥ 1` at which the
walk is over; the result merges exactly the first `n` entries and reports the
`n`-th entry's key; if no prefix ends the walk, the iterator is exhausted and
the query returns nothing. -/
def searchSpecFrom (time : Duration) (acc : TimelineEntry)
    (ds : List (Duration × TimelineEntry)) :
    PanicOr (Option (Duration × TimelineEntry)) :=
  match (List.range ds.length).find? (fun m => stopsAt time acc ds (m + 1)) with
  | none => .ok none
  | some m =>
    match mergeFold acc (ds.take (m + 1)) with
    | .panic => .panic
    | .ok v => .ok ((ds.drop m).head?.map (fun p => (p.1, v)))

theorem find?_map_succ (p : Nat → Bool) (l : List Nat) :
    (l.map Nat.succ).find? p = (l.find? (fun m => p (m + 1))).map Nat.succ := by
  induction l with
  | nil => rfl
  | cons a l ih =>
    simp only [List.map_cons, List.find?, Nat.succ_eq_add_one]
    cases h : p (a + 1) with
    | true => simp [h]
    | false => simp [h, ih]

theorem searchLoop_eq_searchSpecFrom (time : Duration) :
    ∀ (ds : List (Duration × TimelineEntry)) (acc : TimelineEntry),
      searchLoop time ds acc = searchSpecFrom time acc ds := by
  intro ds
  induction ds with
  | nil => intro acc; rfl
  | cons hd rest ih =>
    intro acc
    obtain ⟨t0, e⟩ := hd
    cases hm : TimelineEntry.merge acc e with
    | panic =>
      have h1 : stopsAt time acc ((t0, e) :: rest) (0 + 1) = true := by
        simp [stopsAt, mergeFold, hm]
      simp only [searchLoop, hm, searchSpecFrom, List.length_cons,
        List.range_succ_eq_map, List.find?]
      simp only [h1]
      simp [mergeFold, hm]
    | ok acc' =>
      by_cases hstop : stopCond acc' time = true
      · have h1 : stopsAt time acc ((t0, e) :: rest) (0 + 1) = true := by
          simp [stopsAt, mergeFold, hm, hstop]
        simp only [searchLoop, hm, hstop, if_true, searchSpecFrom,
          List.length_cons, List.range_succ_eq_map, List.find?]
        simp only [h1]
        simp [mergeFold, hm]
      · have hsf : stopCond acc' time = false := by
          simpa using hstop
        have h1 : stopsAt time acc ((t0, e) :: rest) (0 + 1) = false := by
          simp [stopsAt, mergeFold, hm, hsf]
        have hshift : ∀ n : Nat,
            stopsAt time acc ((t0, e) :: rest) (n + 1 + 1) =
              stopsAt time acc' rest (n + 1) := by
          intro n
          simp [stopsAt, List.take_succ_cons, mergeFold, hm]
        have lhs : searchLoop time ((t0, e) :: rest) acc =
            searchLoop time rest acc' := by
          simp [searchLoop, hm, hsf]
        rw [lhs, ih acc']
        simp only [searchSpecFrom, List.length_cons, List.range_succ_eq_map,
          List.find?]
        simp only [h1]
        simp only [Bool.false_eq_true, reduceIte, find?_map_succ, hshift]
        cases hfound : (List.range rest.length).find?
            (fun m => stopsAt time acc' rest (m + 1)) with
        | none => simp
        | some m =>
          simp [mergeFold, hm, List.take_succ_cons, List.drop_succ_cons]

/-! ## History store (src/peregrine/src/history.rs) -/

/-- `CopyHistory<T>`: a `DashMap<u64, T>` with the pass-through hasher. -/
abbrev CopyHistory (α : Type) := List (Nat × α)

/-- `CopyHistory::insert`: `DashMap::insert` stores `value` under `hash`,
replacing any previously stored value, and the returned `Read` is the
argument itself. -/
def CopyHistory.insert {α : Type} (m : CopyHistory α) (hash : Nat) (value : α) :
    CopyHistory α × α :=
  (btInsert m hash value, value)

/-- `CopyHistory::get`. -/
def CopyHistory.get {α : Type} (m : CopyHistory α) (hash : Nat) : Option α :=
  btLookup m hash

/-- `DerefHistory<T>`: a `DashMap<u64, T>` addressed through `Entry::or_insert`. -/
abbrev DerefHistory (α : Type) := List (Nat × α)

/-- `DerefHistory::insert`: `entry(hash).or_insert(value)` keeps the already
stored value when one is present (discarding `value`) and returns a reference
to the stored value. -/
def DerefHistory.insert {α : Type} (m : DerefHistory α) (hash : Nat) (value : α) :
    DerefHistory α × α :=
  match btLookup m hash with
  | some stored => (m, stored)
  | none => (btInsert m hash value, value)

/-- `DerefHistory::get`. -/
def DerefHistory.get {α : Type} (m : DerefHistory α) (hash : Nat) : Option α :=
  btLookup m hash

/-! ## Pass-through hasher (src/peregrine/src/history.rs) -/

/-- `PassThroughHasher`: the single `u64` state slot. -/
structure PassThroughHasher where
  state : Nat
deriving DecidableEq, Repr

namespace PassThroughHasher

/-- `PassThroughHashBuilder::build_hasher`. -/
def build_hasher : PassThroughHasher := ⟨0⟩

/-- `Hasher::finish`. -/
def finish (h : PassThroughHasher) : Nat := h.state

/-- `Hasher::write` is `unreachable!()`. -/
def write (_h : PassThroughHasher) (_bytes : List Nat) : PanicOr PassThroughHasher :=
  .panic

/-- `Hasher::write_u8` is `unreachable!()`. -/
def write_u8 (_h : PassThroughHasher) (_i : Nat) : PanicOr PassThroughHasher :=
  .panic

/-- `Hasher::write_u16` is `unreachable!()`. -/
def write_u16 (_h : PassThroughHasher) (_i : Nat) : PanicOr PassThroughHasher :=
  .panic

/-- `Hasher::write_u32` is `unreachable!()`. -/
def write_u32 (_h : PassThroughHasher) (_i : Nat) : PanicOr PassThroughHasher :=
  .panic

/-- `Hasher::write_usize` is `unreachable!()`. -/
def write_usize (_h : PassThroughHasher) (_i : Nat) : PanicOr PassThroughHasher :=
  .panic

/-- `Hasher::write_u64`: store the word (a `u64`, hence the reduction). -/
def write_u64 (_h : PassThroughHasher) (i : Nat) : PanicOr PassThroughHasher :=
  .ok ⟨i % 2 ^ 64⟩

end PassThroughHasher

/-- Modelled from the spec: hashing a `u64` map key (Rust's `impl Hash for
u64`, outside these sources) calls `write_u64` once with the key and nothing
else, after which the map reads `finish`. -/
def hashU64Key (key : Nat) : PanicOr Nat :=
  (PassThroughHasher.build_hasher.write_u64 key).map PassThroughHasher.finish

/-! ## The structural hash (src/peregrine_macros/src/operation/output.rs and
src/peregrine/src/operation/initial_conditions.rs) -/

/-- Modelled from the spec: the engine's default 64-bit hasher
(`PeregrineDefaultHashBuilder`, i.e. foldhash, a dependency outside these
sources). The only structure the claims rely on is that it folds each written
word into a running state; `Nat.pair` stands in for the combining step. -/
def hashWord (state word : Nat) : Nat := Nat.pair state word

/-- Running the default hasher over a list of words and finishing. -/
def hashWords (words : List Nat) : Nat := words.foldl hashWord 0

/-- The data available to a generated operation node's `run` body when it
computes its structural hash: the output type's identity
(`TypeId::of::<#output>()`), the read responses (structural hash paired with
read value) in declared order, the node's resolved grounding time and the
parent activity's label. -/
structure OpNodeRun where
  typeId : Nat
  responses : List (Nat × Nat)
  groundingTime : Duration
  activityLabel : Nat
deriving DecidableEq, Repr

/-- The structural-hash computation of the generated `run`: build the default
hasher, hash the output type's identity, then hash each read-response hash in
declared order, and finish. -/
def opOutputHash (n : OpNodeRun) : Nat :=
  (n.responses.map Prod.fst).foldl hashWord (hashWord 0 n.typeId)

/-! ## Initial conditions (src/peregrine/src/operation/initial_conditions.rs) -/

/-- `InitialConditionOp`: the stored initial `Write` value (abstracted to a
number) and its time. -/
structure InitialConditionOp where
  value : Nat
  time : Duration
deriving DecidableEq, Repr

/-- The hash computed by `InitialConditionOp::request`:
the default hasher applied to the bincode serialization of the value
(`serialize` stands for `bincode::serde::encode_to_vec`). -/
def icOutputHash (serialize : Nat → List Nat) (op : InitialConditionOp) : Nat :=
  hashWords (serialize op.value)

/-- `InitialConditionOp::remove_self`:
`Err(anyhow!("Cannot remove initial conditions."))`. -/
def InitialConditionOp.remove_self (_op : InitialConditionOp) : Except String Unit :=
  .error "Cannot remove initial conditions."

/-! ## Error accumulator (src/peregrine/src/exec.rs) -/

/-- An `anyhow::Error` as far as the accumulator can observe it: either the
`ObservedErrorOutput` marker or a real error (with its payload abstracted). -/
inductive EngineError where
  | observedErrorOutput
  | real (data : Nat)
deriving DecidableEq, Repr

/-- `err.is::<ObservedErrorOutput>()`. -/
def EngineError.isObservedMarker : EngineError → Bool
  | .observedErrorOutput => true
  | .real _ => false

/-- `ErrorAccumulator`: a queue of errors (`SegQueue`), modelled in
arrival order. -/
abbrev ErrorAccumulator := List EngineError

/-- `ErrorAccumulator::push`: append unless the error is the marker. -/
def ErrorAccumulator.push (q : ErrorAccumulator) (e : EngineError) : ErrorAccumulator :=
  if e.isObservedMarker then q else q ++ [e]

/-- A sequence of `push` calls. -/
def ErrorAccumulator.pushAll (q : ErrorAccumulator) (es : List EngineError) :
    ErrorAccumulator :=
  es.foldl ErrorAccumulator.push q

/-- `ErrorAccumulator::into_vec`. -/
def ErrorAccumulator.into_vec (q : ErrorAccumulator) : List EngineError := q

/-- `ErrorAccumulator::is_empty`. -/
def ErrorAccumulator.is_empty (q : ErrorAccumulator) : Bool := q.isEmpty

/-! ## Request/respond protocol types (src/peregrine/src/operation/mod.rs) -/

/-- `InternalResult<T> = Result<T, ObservedErrorOutput>`. -/
inductive InternalResult (α : Type) where
  | ok (a : α)
  | observedError
deriving DecidableEq, Repr

/-- `Result::map`. -/
def InternalResult.map {α β : Type} (f : α → β) : InternalResult α → InternalResult β
  | .ok a => .ok (f a)
  | .observedError => .observedError

/-- `Continuation<R>`: a downstream node, a marked downstream node, or a
root one-shot sender. The trait objects and senders are abstracted to
identifiers. -/
inductive Continuation where
  | node (downstream : Nat)
  | markedNode (marker : Nat) (downstream : Nat)
  | root (sender : Nat)
deriving DecidableEq, Repr

/-- `Continuation::to_downstream` (a borrowing conversion): node
continuations yield a downstream handle, root continuations yield none. -/
def Continuation.to_downstream : Continuation → Option Nat
  | .node d => some d
  | .markedNode _ d => some d
  | .root _ => none

/-! ## Ungrounded-upstream resolver (src/peregrine/src/operation/ungrounded.rs) -/

/-- `MarkedValue<Duration>`: a grounding response value tagged with the
candidate marker it was requested under. -/
structure MarkedDuration where
  marker : Nat
  value : Duration
deriving DecidableEq, Repr

/-- The immutable part of an `UngroundedUpstreamResolver`: the reader's eval
time, the optional grounded fallback `(entry time, writer)` and the list of
ungrounded candidates. -/
structure UngroundedUpstreamResolver where
  time : Duration
  grounded_upstream : Option (Duration × Writer)
  ungrounded_upstreams : List Writer
deriving DecidableEq, Repr

/-- The mutex-guarded mutable state of an `UngroundedUpstreamResolver`, as
initialized by `UngroundedUpstreamResolver::new`. -/
structure ResolverState where
  grounding_responses : List (InternalResult MarkedDuration)
  continuation : Option Continuation
  downstream : Option Nat
  cached_decision : Option (InternalResult (Duration × Writer))
deriving DecidableEq, Repr

/-- `UngroundedUpstreamResolver::new`: every mutable slot starts empty. -/
def ResolverState.initial : ResolverState := ⟨[], none, none, none⟩

/-- The externally visible calls `request` and `respond` make. -/
inductive ResolverEffect where
  | delegated (upstream : Writer) (continuation : Continuation)
  | ranObservedError (continuation : Continuation)
  | groundingRequested (marker : Nat) (candidate : Writer)
deriving DecidableEq, Repr

/-- `UngroundedUpstreamResolver::request`. With a cached decision, delegate
to the cached upstream (or report the cached error). Otherwise record the
continuation's downstream handle — the continuation itself is never stored
anywhere — and request the grounding of every ungrounded candidate: the
candidates after the first are spawned with markers `0, 1, …` produced by
`enumerate` over `ungrounded_upstreams[1..]`, and the first candidate is then
requested with marker `0`. -/
def UngroundedUpstreamResolver.request (r : UngroundedUpstreamResolver)
    (st : ResolverState) (continuation : Continuation) (already_registered : Bool) :
    ResolverState × List ResolverEffect :=
  match st.cached_decision with
  | some (.ok (_, u)) => (st, [.delegated u continuation])
  | some .observedError => (st, [.ranObservedError continuation])
  | none =>
    let st1 := if already_registered then st
      else { st with downstream := continuation.to_downstream }
    match r.ungrounded_upstreams with
    | [] => (st1, [])
    | c0 :: tail =>
      (st1,
        tail.enum.map (fun p => ResolverEffect.groundingRequested p.1 p.2)
          ++ [.groundingRequested 0 c0])

/-- `collect::<Result<SmallVec, _>>()` over the drained grounding responses:
the first error short-circuits. -/
def collectResponses : List (InternalResult MarkedDuration) →
    InternalResult (List MarkedDuration)
  | [] => .ok []
  | .observedError :: _ => .observedError
  | .ok v :: rest =>
    match collectResponses rest with
    | .observedError => .observedError
    | .ok vs => .ok (v :: vs)

/-- One step of `Iterator::max_by_key` on the grounding value: keep the
later element on ties. -/
def mbStep (best : Option MarkedDuration) (x : MarkedDuration) :
    Option MarkedDuration :=
  match best with
  | none => some x
  | some b => if b.value ≤ x.value then some x else some b

/-- `Iterator::max_by_key` on the grounding value: the last maximal element
of the list, if any. -/
def maxByValue (l : List MarkedDuration) : Option MarkedDuration :=
  l.foldl mbStep none

/-- The `(earliest_ungrounded, grounded_upstream)` decision of
`UngroundedUpstreamResolver::respond` once every grounding response has
arrived successfully: the candidate response with the greatest value strictly
below the eval time (ties to the latest response) against the grounded
fallback; the fallback wins only when its time is strictly greater. Indexing
`ungrounded_upstreams[marker]` out of bounds panics, and so does the
`unreachable!()` arm hit when neither side exists. -/
def UngroundedUpstreamResolver.decide (r : UngroundedUpstreamResolver)
    (vec : List MarkedDuration) : PanicOr (Duration × Writer) :=
  match maxByValue (vec.filter (fun gr => gr.value < r.time)), r.grounded_upstream with
  | some ug, some gr =>
    if gr.1 > ug.value then .ok gr
    else
      match r.ungrounded_upstreams[ug.marker]? with
      | some u => .ok (ug.value, u)
      | none => .panic
  | some ug, none =>
    match r.ungrounded_upstreams[ug.marker]? with
    | some u => .ok (ug.value, u)
    | none => .panic
  | none, some gr => .ok gr
  | none, none => .panic

/-- `UngroundedUpstreamResolver::respond` (the `Downstream` implementation
for marked grounding responses): push the response; once as many responses
as candidates have arrived, take the stored continuation — `unwrap` panics
when the slot is empty — then fold the responses, cache the decision and
delegate (on error, run the continuation with the observed-error marker). -/
def UngroundedUpstreamResolver.respond (r : UngroundedUpstreamResolver)
    (st : ResolverState) (value : InternalResult (Nat × MarkedDuration)) :
    PanicOr (ResolverState × List ResolverEffect) :=
  let responses := st.grounding_responses ++ [value.map Prod.snd]
  if responses.length = r.ungrounded_upstreams.length then
    match st.continuation with
    | none => .panic
    | some continuation =>
      match collectResponses responses with
      | .observedError =>
        .ok ({ st with
                grounding_responses := []
                continuation := none
                cached_decision := some .observedError },
          [.ranObservedError continuation])
      | .ok vec =>
        match r.decide vec with
        | .panic => .panic
        | .ok d =>
          .ok ({ st with
                  grounding_responses := []
                  continuation := none
                  cached_decision := some (.ok d) },
            [.delegated d.2 continuation])
  else
    .ok ({ st with grounding_responses := responses }, [])

/-! ## Initial-condition node state machine
(src/peregrine/src/operation/initial_conditions.rs) -/

/-- `OperationStatus` of an initial-condition node; its output type is the
`(hash, Read)` pair. -/
inductive ICStatus where
  | dormant
  | working
  | done (r : InternalResult (Nat × Nat))
deriving DecidableEq, Repr

/-- The lock-guarded `OperationState` of an `InitialConditionOp` (its
response counter and continuation queue are never used by this node type). -/
structure ICState where
  status : ICStatus
  downstreams : List Nat
deriving DecidableEq, Repr

/-- `OperationState::default()`: dormant, no downstreams. -/
def ICState.initial : ICState := ⟨.dormant, []⟩

/-- The tail of `InitialConditionOp::request`: unless `already_registered`,
push the continuation's downstream handle onto the downstream list. -/
def pushDownstream (st : ICState) (continuation : Continuation)
    (already_registered : Bool) : ICState :=
  if already_registered then st
  else
    match continuation.to_downstream with
    | some d => { st with downstreams := st.downstreams ++ [d] }
    | none => st

/-- `InitialConditionOp::request`. Under the state lock: when dormant,
compute the hash of the serialized value, look it up in the history (on a
miss, insert the value and take the returned `Read`), and transition to
`Done(Ok(output))`; when already done, `unwrap` the stored result (panicking
on an error result); the `Working` arm is `unreachable!()`. Then, unless
`already_registered`, push the continuation's downstream handle, and finally
run the continuation with `Ok(output)`. -/
def InitialConditionOp.request (op : InitialConditionOp)
    (serialize : Nat → List Nat) (st : ICState) (history : CopyHistory Nat)
    (continuation : Continuation) (already_registered : Bool) :
    PanicOr (ICState × CopyHistory Nat × (Continuation × InternalResult (Nat × Nat))) :=
  match st.status with
  | .dormant =>
    let hash := icOutputHash serialize op
    let looked :=
      match CopyHistory.get history hash with
      | some r => (history, (hash, r))
      | none =>
        let inserted := CopyHistory.insert history hash op.value
        (inserted.1, (hash, inserted.2))
    let st1 := { st with status := ICStatus.done (.ok looked.2) }
    .ok (pushDownstream st1 continuation already_registered, looked.1,
      (continuation, .ok looked.2))
  | .done (.ok output) =>
    .ok (pushDownstream st continuation already_registered, history,
      (continuation, .ok output))
  | .done .observedError => .panic
  | .working => .panic

/-- `InitialConditionOp::notify_downstreams`: retain the downstreams whose
`clear_upstream` returns true (`keeps` abstracts those calls); nothing else
is touched. -/
def InitialConditionOp.notify_downstreams (st : ICState) (keeps : Nat → Bool) :
    ICState :=
  { st with downstreams := st.downstreams.filter keeps }

/-- `InitialConditionOp::register_downstream_early`: push a downstream. -/
def InitialConditionOp.register_downstream_early (st : ICState) (d : Nat) :
    ICState :=
  { st with downstreams := st.downstreams ++ [d] }

/-- One external call to an `InitialConditionOp`. -/
inductive ICAction where
  | request (continuation : Continuation) (already_registered : Bool)
  | notify (keeps : Nat → Bool)
  | registerEarly (d : Nat)

/-- Run a sequence of calls against an `InitialConditionOp`, collecting the
`(continuation, result)` pairs of every continuation run by a request. -/
def runIC (op : InitialConditionOp) (serialize : Nat → List Nat) :
    ICState → CopyHistory Nat → List ICAction →
    PanicOr (ICState × CopyHistory Nat × List (Continuation × InternalResult (Nat × Nat)))
  | st, hist, [] => .ok (st, hist, [])
  | st, hist, .request c flag :: rest =>
    match op.request serialize st hist c flag with
    | .panic => .panic
    | .ok (st', hist', call) =>
      match runIC op serialize st' hist' rest with
      | .panic => .panic
      | .ok (stf, hf, calls) => .ok (stf, hf, call :: calls)
  | st, hist, .notify keeps :: rest =>
    runIC op serialize (InitialConditionOp.notify_downstreams st keeps) hist rest
  | st, hist, .registerEarly d :: rest =>
    runIC op serialize (InitialConditionOp.register_downstream_early st d) hist rest

/-! ## Plan facade (src/peregrine/src/lib.rs) -/

/-- `Plan` (the parts `remove` could see): the map from activity ids to
activities, abstracted to their insertion times. -/
structure Plan where
  activities : List (Nat × Duration)
deriving DecidableEq, Repr

/-- `Plan::remove`: the body is `todo!()`, which panics unconditionally
without inspecting the plan or the id. -/
def Plan.remove (_plan : Plan) (_id : Nat) : PanicOr Unit := .panic

/-! # Theorems settling the claims -/

/-! ## Claim C9 -/

/-- Claim C9: for every 64-bit hash key `h`, hashing `h` with the
pass-through hasher — building the hasher, writing `h` through `write_u64`
(the only write method Rust's `u64` hash implementation calls) and finishing
— succeeds (no panicking write method is reached) and yields exactly `h`. -/
theorem pass_through_hasher_identity (h : Nat) (hlt : h < 2 ^ 64) :
    hashU64Key h = .ok h := by
  simp only [hashU64Key, PassThroughHasher.write_u64, PassThroughHasher.finish,
    PassThroughHasher.build_hasher, PanicOr.map, PanicOr.ok.injEq]
  omega

/-- Witness for C9: the hasher maps the concrete key 81985529216486895 to
itself. -/
theorem pass_through_hasher_identity_witness :
    hashU64Key 81985529216486895 = .ok 81985529216486895 :=
  pass_through_hasher_identity 81985529216486895 (by norm_num)

/-! ## Claim C8 -/

theorem pushAll_eq_append_filter (q : ErrorAccumulator) (es : List EngineError) :
    ErrorAccumulator.pushAll q es =
      q ++ es.filter (fun e => ! e.isObservedMarker) := by
  induction es generalizing q with
  | nil => simp [ErrorAccumulator.pushAll]
  | cons e es ih =>
    have step : ErrorAccumulator.pushAll q (e :: es) =
        ErrorAccumulator.pushAll (ErrorAccumulator.push q e) es := rfl
    rw [step, ih]
    cases he : e.isObservedMarker with
    | true => simp [ErrorAccumulator.push, he, List.filter_cons]
    | false => simp [ErrorAccumulator.push, he, List.filter_cons]

/-- Claim C8: `push e` appends `e` exactly when `e` is not the
`ObservedErrorOutput` marker, so after any sequence of pushes the collected
errors are exactly the pushed non-marker errors (in order), and the
accumulator is empty exactly when no non-marker error was ever pushed. -/
theorem error_accumulator_filters_markers (es : List EngineError) :
    (∀ (q : ErrorAccumulator) (e : EngineError),
      ErrorAccumulator.push q e = if e.isObservedMarker then q else q ++ [e]) ∧
    (ErrorAccumulator.pushAll [] es).into_vec =
      es.filter (fun e => ! e.isObservedMarker) ∧
    ((ErrorAccumulator.pushAll [] es).is_empty = true ↔
      ∀ e ∈ es, e.isObservedMarker = true) := by
  refine ⟨fun q e => rfl, ?_, ?_⟩
  · simpa [ErrorAccumulator.into_vec] using pushAll_eq_append_filter [] es
  · rw [ErrorAccumulator.is_empty, pushAll_eq_append_filter [] es]
    simp [List.isEmpty_iff, List.filter_eq_nil_iff]

/-- Witness for C8 at a concrete push sequence: pushing a real error, the
marker, and another real error collects exactly the two real errors. -/
theorem error_accumulator_filters_markers_witness :
    (ErrorAccumulator.pushAll []
      [EngineError.real 3, EngineError.observedErrorOutput,
        EngineError.real 5]).into_vec =
      [EngineError.real 3, EngineError.real 5] :=
  (error_accumulator_filters_markers
    [EngineError.real 3, EngineError.observedErrorOutput,
      EngineError.real 5]).2.1.trans (by decide)

/-! ## Claim C7 -/

/-- Claim C7 (code bug): `Plan::remove` is `todo!()`: it panics for an id
present in the plan, and for an unknown id, instead of returning a failed
`Result` only for the unknown case; only `InitialConditionOp::remove_self`
behaves as claimed, returning an error. -/
theorem plan_remove_always_panics :
    Plan.remove ⟨[(0, 0), (1, 1), (2, 2)]⟩ 2 = .panic ∧
    Plan.remove ⟨[(0, 0), (1, 1), (2, 2)]⟩ 5 = .panic ∧
    Plan.remove ⟨[]⟩ 0 = .panic ∧
    InitialConditionOp.remove_self ⟨0, 0⟩ =
      .error "Cannot remove initial conditions." :=
  ⟨rfl, rfl, rfl, rfl⟩

/-! ## Claim C2 -/

/-- Counterexample to C2 as stated: in `CopyHistory`, inserting 20 under
hash 5 when 10 is already stored there replaces the stored value and returns
the new value, not the first-inserted one. -/
theorem copy_history_second_insert_wins :
    (CopyHistory.insert (CopyHistory.insert ([] : CopyHistory Nat) 5 10).1 5 20).2 = 20 ∧
    CopyHistory.get
      (CopyHistory.insert (CopyHistory.insert ([] : CopyHistory Nat) 5 10).1 5 20).1 5 =
      some 20 ∧
    (CopyHistory.insert ([] : CopyHistory Nat) 5 10).2 = 10 ∧
    (10 : Nat) ≠ 20 := by
  refine ⟨rfl, rfl, rfl, by decide⟩

/-- Claim C2 (amended): `DerefHistory::insert` is first-writer-wins — on a
collision the stored value is kept unchanged and the returned `Read` is the
first value ever inserted at `h` — while `CopyHistory::insert` is
last-writer-wins: it replaces the stored value with its argument and returns
its argument. -/
theorem history_insert_collision_semantics {α : Type} :
    (∀ (m : DerefHistory α) (h : Nat) (v w : α),
      DerefHistory.get m h = some w → DerefHistory.insert m h v = (m, w)) ∧
    (∀ (m : DerefHistory α) (h : Nat) (v : α),
      DerefHistory.get m h = none →
        DerefHistory.insert m h v = (btInsert m h v, v)) ∧
    (∀ (m : DerefHistory α) (h : Nat) (v₁ v₂ : α),
      DerefHistory.get m h = none →
        (DerefHistory.insert (DerefHistory.insert m h v₁).1 h v₂).2 = v₁ ∧
        (DerefHistory.insert (DerefHistory.insert m h v₁).1 h v₂).1 =
          (DerefHistory.insert m h v₁).1) ∧
    (∀ (m : CopyHistory α) (h : Nat) (v : α),
      (CopyHistory.insert m h v).2 = v ∧
      CopyHistory.get (CopyHistory.insert m h v).1 h = some v ∧
      ∀ h' : Nat, h' ≠ h →
        CopyHistory.get (CopyHistory.insert m h v).1 h' = CopyHistory.get m h') := by
  refine ⟨?_, ?_, ?_, ?_⟩
  · intro m h v w hget
    simp [DerefHistory.insert, DerefHistory.get] at hget ⊢
    simp [hget]
  · intro m h v hget
    simp only [DerefHistory.insert, DerefHistory.get] at hget ⊢
    simp [hget]
  · intro m h v₁ v₂ hget
    simp only [DerefHistory.insert, DerefHistory.get] at hget ⊢
    rw [hget]
    simp [btLookup_btInsert]
  · intro m h v
    refine ⟨rfl, ?_, ?_⟩
    · simp [CopyHistory.get, CopyHistory.insert, btLookup_btInsert]
    · intro h' hne
      simp [CopyHistory.get, CopyHistory.insert, btLookup_btInsert, hne]

/-- Witness for C2's amended theorem at concrete inputs. -/
theorem history_insert_collision_semantics_witness :
    DerefHistory.insert ([(5, 10)] : DerefHistory Nat) 5 20 = ([(5, 10)], 10) ∧
    (CopyHistory.insert ([(5, 10)] : CopyHistory Nat) 5 20).2 = 20 := by
  constructor
  · exact (history_insert_collision_semantics (α := Nat)).1 [(5, 10)] 5 20 10 rfl
  · exact ((history_insert_collision_semantics (α := Nat)).2.2.2 [(5, 10)] 5 20).1

/-! ## Claim C5 -/

/-- Claim C5: a generated operation node's output hash is the engine's
default hasher applied to the output type's identity followed by the read
response hashes in declared order; it depends on nothing else (two nodes
agreeing on those — whatever their read values, grounding times or activity
labels — hash identically); and an initial-condition node's hash is the
default hasher applied to the serialized initial value only (its time is
irrelevant). -/
theorem structural_hash_inputs :
    (∀ n : OpNodeRun,
      opOutputHash n = hashWords (n.typeId :: n.responses.map Prod.fst)) ∧
    (∀ n n' : OpNodeRun, n.typeId = n'.typeId →
      n.responses.map Prod.fst = n'.responses.map Prod.fst →
      opOutputHash n = opOutputHash n') ∧
    (∀ (serialize : Nat → List Nat) (op op' : InitialConditionOp),
      serialize op.value = serialize op'.value →
      icOutputHash serialize op = icOutputHash serialize op') := by
  refine ⟨?_, ?_, ?_⟩
  · intro n
    simp [opOutputHash, hashWords]
  · intro n n' hty hresp
    simp [opOutputHash, hty, hresp]
  · intro serialize op op' hser
    simp [icOutputHash, hser]

/-- Witness for C5: two nodes with the same type identity and response
hashes but different read values, times and labels hash identically, and two
initial conditions at different times with equal serializations hash
identically. -/
theorem structural_hash_inputs_witness :
    opOutputHash ⟨3, [(10, 1), (20, 2)], 100, 7⟩ =
      opOutputHash ⟨3, [(10, 5), (20, 6)], -4, 8⟩ ∧
    icOutputHash (fun v => [v]) ⟨9, 0⟩ = icOutputHash (fun v => [v]) ⟨9, 55⟩ := by
  constructor
  · exact structural_hash_inputs.2.1 ⟨3, [(10, 1), (20, 2)], 100, 7⟩
      ⟨3, [(10, 5), (20, 6)], -4, 8⟩ rfl rfl
  · exact structural_hash_inputs.2.2 (fun v => [v]) ⟨9, 0⟩ ⟨9, 55⟩ rfl

/-! ## Concrete timelines reachable through the insertion API -/

/-- The timeline obtained by `init(0, writer 0)` and then
`insert_ungrounded(1, 5, writer 1)`: the entry at key 1 has no grounded
writer. -/
def tlUngroundedAfterIC : Timeline := ⟨[(0, ⟨some 0, []⟩), (1, ⟨none, [(5, 1)]⟩)]⟩

/-- The timeline obtained by `init(0, writer 0)` and then
`insert_grounded(1, writer 2)`. -/
def tlTwoGrounded : Timeline := ⟨[(0, ⟨some 0, []⟩), (1, ⟨some 2, []⟩)]⟩

/-- `tlTwoGrounded` after `insert_ungrounded(0, 5, writer 1)`: the new entry
replaces the initial-condition entry at key 0 and `(5, 1)` is threaded into
the entry at key 1. -/
def tlSpanned : Timeline := ⟨[(0, ⟨none, [(5, 1)]⟩), (1, ⟨some 2, [(5, 1)]⟩)]⟩

/-! ## Claim C6 -/

/-- Counterexample to C6 as stated: `insert_grounded(1, writer 7)` on a
timeline whose entry at key 1 holds the ungrounded map `[(5, 1)]` replaces
the whole entry — the ungrounded map becomes empty, not "left unchanged";
`remove_grounded(1)` on a timeline whose entry at key 1 is
`(some 2, [(5, 1)])` removes the whole entry rather than erasing only the
grounded field. Both timelines arise from `init` plus insertions. -/
theorem timeline_grounded_ops_clobber_entries :
    (Timeline.init 0 0).insert_ungrounded 1 5 1 = .ok (tlUngroundedAfterIC, []) ∧
    btLookup tlUngroundedAfterIC.entries 1 = some ⟨none, [(5, 1)]⟩ ∧
    tlUngroundedAfterIC.insert_grounded 1 7 =
      .ok (⟨[(0, ⟨some 0, []⟩), (1, ⟨some 7, []⟩)]⟩, [0]) ∧
    (Timeline.init 0 0).insert_grounded 1 2 = .ok (tlTwoGrounded, [0]) ∧
    tlTwoGrounded.insert_ungrounded 0 5 1 = .ok (tlSpanned, [0, 2]) ∧
    btLookup tlSpanned.entries 1 = some ⟨some 2, [(5, 1)]⟩ ∧
    (tlSpanned.remove_grounded 1).1.entries = [(0, ⟨none, [(5, 1)]⟩)] ∧
    btLookup (tlSpanned.remove_grounded 1).1.entries 1 = none := by
  decide

/-- Claim C6 (amended): `insert_grounded(t, w)` replaces the entire entry at
key `t` by a fresh grounded-only entry (the ungrounded map stored there is
discarded) and `remove_grounded(t)` removes the entire entry at key `t`
(grounded and ungrounded fields alike), returning whether one was present;
every entry at a key other than `t` is left unchanged by both operations. -/
theorem timeline_grounded_ops_replace_whole_entry :
    (∀ (tl : Timeline) (t : Duration) (w : Writer) (tl' : Timeline)
        (vec : List Writer),
      tl.insert_grounded t w = .ok (tl', vec) →
        btLookup tl'.entries t = some (TimelineEntry.new_grounded w) ∧
        ∀ t' : Duration, t' ≠ t →
          btLookup tl'.entries t' = btLookup tl.entries t') ∧
    (∀ (tl : Timeline) (t : Duration), btWF tl.entries →
      btLookup (tl.remove_grounded t).1.entries t = none ∧
      (∀ t' : Duration, t' ≠ t →
        btLookup (tl.remove_grounded t).1.entries t' = btLookup tl.entries t') ∧
      (tl.remove_grounded t).2 = (btLookup tl.entries t).isSome) := by
  constructor
  · intro tl t w tl' vec heq
    simp only [Timeline.insert_grounded] at heq
    cases hs : searchLoop t
        (btRangeLT (btInsert tl.entries t (TimelineEntry.new_grounded w)) t).reverse
        TimelineEntry.new_empty with
    | panic => rw [hs] at heq; exact absurd heq (by simp)
    | ok r =>
      rw [hs] at heq
      simp only [PanicOr.ok.injEq, Prod.mk.injEq] at heq
      obtain ⟨htl, -⟩ := heq
      subst htl
      refine ⟨?_, ?_⟩
      · simp [btLookup_btInsert]
      · intro t' hne
        simp [btLookup_btInsert, hne]
  · intro tl t hwf
    refine ⟨btLookup_btErase_self _ _ hwf, fun t' hne =>
      btLookup_btErase_ne _ _ _ hne, rfl⟩

/-- Witness for C6's amended theorem at concrete inputs. -/
theorem timeline_grounded_ops_replace_whole_entry_witness :
    btLookup (⟨[(0, ⟨some 0, []⟩), (1, ⟨some 5, []⟩)]⟩ : Timeline).entries 1 =
      some (TimelineEntry.new_grounded 5) ∧
    btLookup ((Timeline.init 0 0).remove_grounded 0).1.entries 0 = none := by
  constructor
  · exact (timeline_grounded_ops_replace_whole_entry.1 (Timeline.init 0 0) 1 5
      ⟨[(0, ⟨some 0, []⟩), (1, ⟨some 5, []⟩)]⟩ [0] (by decide)).1
  · exact (timeline_grounded_ops_replace_whole_entry.2 (Timeline.init 0 0) 0
      (by decide)).1

/-! ## Claim C1 -/

/-- Counterexample to C1 as stated: (a) the walk's merge step panics on a
pair of entries that arises from ordinary insertions — querying at time 3
above an entry with no grounded writer fails the merge assertion — and
(b) the merge does not drop ungrounded entries whose max-time is at most the
query time: querying `tlSpanned` at time 7 returns an accumulator whose
ungrounded map still contains `(5, 1)` although `5 ≤ 7`. -/
theorem point_query_merge_panics_and_keeps_committed :
    (Timeline.init 0 0).insert_ungrounded 1 5 1 = .ok (tlUngroundedAfterIC, []) ∧
    tlUngroundedAfterIC.search_possible_upstreams 3 = .panic ∧
    (Timeline.init 0 0).insert_grounded 1 2 = .ok (tlTwoGrounded, [0]) ∧
    tlTwoGrounded.insert_ungrounded 0 5 1 = .ok (tlSpanned, [0, 2]) ∧
    tlSpanned.search_possible_upstreams 7 =
      .ok (some (1, ⟨some 2, [(5, 1)]⟩)) ∧
    ((5 : Int) ≤ 7) := by
  decide

theorem btRangeLT_idem {κ : Type} [LinearOrder κ] {α : Type}
    (m : List (κ × α)) (t : κ) :
    btRangeLT (btRangeLT m t) t = btRangeLT m t := by
  simp only [btRangeLT, List.filter_filter]
  congr 1
  funext p
  simp

/-- Claim C1 (amended): the point query at eval time `t` considers only the
entries with keys strictly below `t`, walking them from the greatest key
downward and merging each encountered entry `e` into an accumulator `V`;
the merge is defined exactly when precisely one of `V`, `e` has its grounded
field set (otherwise the walk panics — which happens for entry pairs arising
from ordinary insertions), and then `V`'s grounded field keeps its value if
already set (else takes `e`'s) while `V`'s ungrounded map gains all of `e`'s
ungrounded entries, regardless of their max-times; the walk stops at the
first prefix whose accumulator has its grounded field set or has an
ungrounded entry with max-time at most `t` (on a well-formed map the
condition checks the least max-time). -/
theorem point_query_walk_characterization :
    (∀ V e : TimelineEntry,
      (V.merge e ≠ .panic ↔ V.grounded.isSome ≠ e.grounded.isSome)) ∧
    (∀ V e : TimelineEntry, V.grounded.isSome ≠ e.grounded.isSome →
      V.merge e = .ok
        ⟨(match V.grounded with | some g => some g | none => e.grounded),
         btExtend V.ungrounded e.ungrounded⟩) ∧
    (∀ (tl : Timeline) (t : Duration),
      tl.search_possible_upstreams t =
        Timeline.search_possible_upstreams ⟨btRangeLT tl.entries t⟩ t) ∧
    (∀ (tl : Timeline) (t : Duration),
      tl.search_possible_upstreams t =
        searchSpecFrom t TimelineEntry.new_empty (btRangeLT tl.entries t).reverse) ∧
    (∀ (V : TimelineEntry) (t : Duration), btWF V.ungrounded →
      (stopCond V t = true ↔
        V.grounded.isSome = true ∨ ∃ p ∈ V.ungrounded, p.1 ≤ t)) := by
  refine ⟨?_, ?_, ?_, ?_, ?_⟩
  · intro V e
    by_cases h : V.grounded.isSome = e.grounded.isSome <;>
      simp [TimelineEntry.merge, h]
  · intro V e h
    simp [TimelineEntry.merge, h]
  · intro tl t
    simp [Timeline.search_possible_upstreams, btRangeLT_idem]
  · intro tl t
    exact searchLoop_eq_searchSpecFrom t _ _
  · intro V t hwf
    cases hu : V.ungrounded with
    | nil => simp [stopCond, hu]
    | cons q rest =>
      rw [hu, btWF, List.pairwise_cons] at hwf
      have hmin : ∀ p ∈ q :: rest, q.1 ≤ p.1 := by
        intro p hp
        rcases List.mem_cons.mp hp with rfl | hp'
        · exact le_refl _
        · exact le_of_lt (hwf.1 p hp')
      simp only [stopCond, hu, List.head?, Bool.or_eq_true, decide_eq_true_eq]
      constructor
      · rintro (hg | hle)
        · exact Or.inl hg
        · exact Or.inr ⟨q, List.mem_cons_self q rest, hle⟩
      · rintro (hg | ⟨p, hp, hle⟩)
        · exact Or.inl hg
        · exact Or.inr (le_trans (hmin p hp) hle)

/-- Witness for C1's amended theorem at concrete inputs: a successful merge
step and a concrete stopping condition. -/
theorem point_query_walk_characterization_witness :
    TimelineEntry.merge ⟨none, []⟩ ⟨some 3, [(5, 1)]⟩ = .ok ⟨some 3, [(5, 1)]⟩ ∧
    stopCond ⟨some 3, [(5, 1)]⟩ 2 = true := by
  constructor
  · exact (point_query_walk_characterization.2.1 ⟨none, []⟩ ⟨some 3, [(5, 1)]⟩
      (by decide)).trans (by decide)
  · exact (point_query_walk_characterization.2.2.2.2 ⟨some 3, [(5, 1)]⟩ 2
      (by decide)).mpr (Or.inl rfl)

/-! ## Claim C3 -/

/-- A resolver with eval time 10, no grounded fallback and a single
ungrounded candidate (writer 7). -/
def resolverOneCandidate : UngroundedUpstreamResolver := ⟨10, none, [7]⟩

/-- Claim C3 (code bug): `request` never writes the continuation into the
resolver's continuation slot (it only records the downstream handle), so
when the final grounding response arrives, `respond`'s
`self.continuation.lock().take().unwrap()` unwraps `None` and panics — for a
root continuation and for a node continuation alike — instead of delegating
the read to the winning upstream. -/
theorem resolver_respond_unwraps_missing_continuation :
    resolverOneCandidate.request ResolverState.initial (.root 0) false =
      (ResolverState.initial, [.groundingRequested 0 7]) ∧
    resolverOneCandidate.respond
      (resolverOneCandidate.request ResolverState.initial (.root 0) false).1
      (.ok (0, ⟨0, 3⟩)) = .panic ∧
    (resolverOneCandidate.request ResolverState.initial (.node 4) false).1.continuation
      = none ∧
    resolverOneCandidate.respond
      (resolverOneCandidate.request ResolverState.initial (.node 4) false).1
      (.ok (0, ⟨0, 3⟩)) = .panic := by
  decide

/-! ## Claim C4 -/

theorem mbFold_spec :
    ∀ (l : List MarkedDuration) (acc : Option MarkedDuration) (b : MarkedDuration),
      l.foldl mbStep acc = some b →
        (b ∈ l ∨ acc = some b) ∧ (∀ x ∈ l, x.value ≤ b.value) ∧
        (∀ a, acc = some a → a.value ≤ b.value) := by
  intro l
  induction l with
  | nil =>
    intro acc b h
    simp only [List.foldl_nil] at h
    subst h
    exact ⟨Or.inr rfl, by simp, fun a ha => by cases ha; exact le_refl _⟩
  | cons x l ih =>
    intro acc b h
    rw [List.foldl_cons] at h
    obtain ⟨hmem, hmax, hacc⟩ := ih (mbStep acc x) b h
    have hxb : x.value ≤ b.value := by
      cases acc with
      | none => exact hacc x rfl
      | some a =>
        by_cases hle : a.value ≤ x.value
        · exact hacc x (by simp [mbStep, hle])
        · exact le_trans (le_of_lt (lt_of_not_le hle))
            (hacc a (by simp [mbStep, hle]))
    have haccb : ∀ a, acc = some a → a.value ≤ b.value := by
      intro a ha
      subst ha
      by_cases hle : a.value ≤ x.value
      · exact le_trans hle (hacc x (by simp [mbStep, hle]))
      · exact hacc a (by simp [mbStep, hle])
    refine ⟨?_, ?_, haccb⟩
    · rcases hmem with hm | hm
      · exact Or.inl (List.mem_cons_of_mem x hm)
      · cases acc with
        | none =>
          simp only [mbStep] at hm
          cases hm
          exact Or.inl (List.mem_cons_self x l)
        | some a =>
          by_cases hle : a.value ≤ x.value
          · simp only [mbStep, if_pos hle] at hm
            cases hm
            exact Or.inl (List.mem_cons_self x l)
          · simp only [mbStep, if_neg hle] at hm
            cases hm
            exact Or.inr rfl
    · intro y hy
      rcases List.mem_cons.mp hy with rfl | hy'
      · exact hxb
      · exact hmax y hy'

theorem mbFold_ne_none :
    ∀ (l : List MarkedDuration) (acc : Option MarkedDuration),
      l.foldl mbStep acc = none → acc = none ∧ l = [] := by
  intro l
  induction l with
  | nil => intro acc h; exact ⟨h, rfl⟩
  | cons x l ih =>
    intro acc h
    rw [List.foldl_cons] at h
    obtain ⟨hstep, -⟩ := ih (mbStep acc x) h
    exfalso
    cases hc : acc with
    | none => rw [hc] at hstep; simp [mbStep] at hstep
    | some a =>
      rw [hc] at hstep
      by_cases hle : a.value ≤ x.value <;> simp [mbStep, hle] at hstep

/-- Claim C4: once the continuation slot holds a continuation and all
grounding responses have arrived without error, `respond` caches and
delegates the decision of `decide`; `decide` picks the grounding response
with the greatest value strictly below the eval time (that value is indeed a
response value, strictly below the eval time, and maximal among those);
with a grounded fallback present the fallback wins exactly when its time is
strictly later, and when no response value is strictly below the eval time
the grounded fallback wins. -/
theorem resolver_decision_picks_latest :
    (∀ (r : UngroundedUpstreamResolver) (st : ResolverState) (c : Continuation)
        (v : InternalResult (Nat × MarkedDuration)) (vec : List MarkedDuration)
        (d : Duration × Writer),
      st.continuation = some c →
      (st.grounding_responses ++ [v.map Prod.snd]).length =
        r.ungrounded_upstreams.length →
      collectResponses (st.grounding_responses ++ [v.map Prod.snd]) = .ok vec →
      r.decide vec = .ok d →
      r.respond st v = .ok
        ({ st with
            grounding_responses := []
            continuation := none
            cached_decision := some (.ok d) },
         [.delegated d.2 c])) ∧
    (∀ (r : UngroundedUpstreamResolver) (vec : List MarkedDuration)
        (gr : Duration × Writer),
      r.grounded_upstream = some gr →
      (∀ x ∈ vec, ¬ x.value < r.time) →
      r.decide vec = .ok gr) ∧
    (∀ (r : UngroundedUpstreamResolver) (vec : List MarkedDuration)
        (ug : MarkedDuration) (u : Writer),
      r.grounded_upstream = none →
      maxByValue (vec.filter (fun q => q.value < r.time)) = some ug →
      r.ungrounded_upstreams[ug.marker]? = some u →
      r.decide vec = .ok (ug.value, u)) ∧
    (∀ (r : UngroundedUpstreamResolver) (vec : List MarkedDuration)
        (ug : MarkedDuration) (u : Writer) (gr : Duration × Writer),
      r.grounded_upstream = some gr →
      maxByValue (vec.filter (fun q => q.value < r.time)) = some ug →
      r.ungrounded_upstreams[ug.marker]? = some u →
      r.decide vec = .ok (if gr.1 > ug.value then gr else (ug.value, u))) ∧
    (∀ (r : UngroundedUpstreamResolver) (vec : List MarkedDuration)
        (ug : MarkedDuration),
      maxByValue (vec.filter (fun q => q.value < r.time)) = some ug →
      ug ∈ vec ∧ ug.value < r.time ∧
        ∀ x ∈ vec, x.value < r.time → x.value ≤ ug.value) := by
  refine ⟨?_, ?_, ?_, ?_, ?_⟩
  · intro r st c v vec d hc hlen hvec hd
    simp only [UngroundedUpstreamResolver.respond]
    rw [if_pos hlen, hc]
    simp only [hvec, hd]
  · intro r vec gr hgr hnone
    have hfil : vec.filter (fun q => decide (q.value < r.time)) = [] :=
      List.filter_eq_nil_iff.mpr (by intro a ha; simpa using hnone a ha)
    simp [UngroundedUpstreamResolver.decide, hfil, maxByValue, hgr]
  · intro r vec ug u hgr hmax hu
    simp [UngroundedUpstreamResolver.decide, hmax, hgr, hu]
  · intro r vec ug u gr hgr hmax hu
    by_cases hlt : gr.1 > ug.value <;>
      simp [UngroundedUpstreamResolver.decide, hmax, hgr, hu, hlt]
  · intro r vec ug hmax
    obtain ⟨hmem, hmax', -⟩ := mbFold_spec _ none ug hmax
    rcases hmem with hm | hm
    · rw [List.mem_filter] at hm
      refine ⟨hm.1, by simpa using hm.2, fun x hx hxlt => ?_⟩
      exact hmax' x (List.mem_filter.mpr ⟨hx, by simpa using hxlt⟩)
    · cases hm

/-- Witness for C4 at concrete inputs: a resolver with candidates writers 7
and 8, grounded fallback (time 4, writer 2), eval time 10, and responses
with values 3 and 6; the decision is the candidate indexed by the winning
marker, at time 6. -/
theorem resolver_decision_picks_latest_witness :
    UngroundedUpstreamResolver.respond ⟨10, some (4, 2), [7, 8]⟩
      ⟨[.ok ⟨0, 3⟩], some (.node 9), none, none⟩ (.ok (0, ⟨1, 6⟩)) =
      .ok (⟨[], none, none, some (.ok (6, 8))⟩, [.delegated 8 (.node 9)]) := by
  exact (resolver_decision_picks_latest.1 ⟨10, some (4, 2), [7, 8]⟩
    ⟨[.ok ⟨0, 3⟩], some (.node 9), none, none⟩ (.node 9) (.ok (0, ⟨1, 6⟩))
    [⟨0, 3⟩, ⟨1, 6⟩] (6, 8) rfl (by decide) (by decide) (by decide)).trans
    (by decide)

/-! ## Claim C10 -/

/-- The continuations passed to the request actions of a call sequence, in
order. -/
def requestConts : List ICAction → List Continuation
  | [] => []
  | .request c _ :: rest => c :: requestConts rest
  | .notify _ :: rest => requestConts rest
  | .registerEarly _ :: rest => requestConts rest

/-- The `(hash, Read)` output computed by the first request served from the
dormant status against a given history: the hash of the serialized value,
and the stored value on a history hit (the op's own value — which `insert`
returns — on a miss). -/
def icFirstOutput (op : InitialConditionOp) (serialize : Nat → List Nat)
    (history : CopyHistory Nat) : Nat × Nat :=
  ((icOutputHash serialize op),
    (CopyHistory.get history (icOutputHash serialize op)).getD op.value)

theorem pushDownstream_status (st : ICState) (c : Continuation) (flag : Bool) :
    (pushDownstream st c flag).status = st.status := by
  cases flag with
  | true => rfl
  | false =>
    cases hc : c.to_downstream <;> simp [pushDownstream, hc]

theorem request_dormant (op : InitialConditionOp) (serialize : Nat → List Nat)
    (st : ICState) (history : CopyHistory Nat) (c : Continuation) (flag : Bool)
    (hst : st.status = .dormant) :
    op.request serialize st history c flag = .ok
      (pushDownstream
        { st with status := ICStatus.done (.ok (icFirstOutput op serialize history)) }
        c flag,
       (match CopyHistory.get history (icOutputHash serialize op) with
        | some _ => history
        | none => (CopyHistory.insert history (icOutputHash serialize op) op.value).1),
       (c, .ok (icFirstOutput op serialize history))) := by
  obtain ⟨status, ds⟩ := st
  simp only at hst
  subst hst
  simp only [InitialConditionOp.request, icFirstOutput]
  cases hget : CopyHistory.get history (icOutputHash serialize op) <;>
    simp [hget, CopyHistory.insert]

theorem request_done (op : InitialConditionOp) (serialize : Nat → List Nat)
    (st : ICState) (history : CopyHistory Nat) (c : Continuation) (flag : Bool)
    (out : Nat × Nat) (hst : st.status = .done (.ok out)) :
    op.request serialize st history c flag =
      .ok (pushDownstream st c flag, history, (c, .ok out)) := by
  obtain ⟨status, ds⟩ := st
  simp only at hst
  subst hst
  simp only [InitialConditionOp.request]

theorem runIC_done (op : InitialConditionOp) (serialize : Nat → List Nat)
    (out : Nat × Nat) :
    ∀ (acts : List ICAction) (st : ICState) (hist : CopyHistory Nat),
      st.status = .done (.ok out) →
      ∃ stf, runIC op serialize st hist acts =
          .ok (stf, hist, (requestConts acts).map (fun c => (c, .ok out))) ∧
        stf.status = .done (.ok out) := by
  intro acts
  induction acts with
  | nil => intro st hist hst; exact ⟨st, rfl, hst⟩
  | cons a rest ih =>
    intro st hist hst
    cases a with
    | request c flag =>
      obtain ⟨stf, hrun, hstat⟩ := ih (pushDownstream st c flag) hist
        (by rw [pushDownstream_status]; exact hst)
      refine ⟨stf, ?_, hstat⟩
      simp only [runIC, request_done op serialize st hist c flag out hst, hrun,
        requestConts, List.map_cons]
    | notify keeps =>
      obtain ⟨stf, hrun, hstat⟩ := ih (InitialConditionOp.notify_downstreams st keeps)
        hist (by simpa [InitialConditionOp.notify_downstreams] using hst)
      exact ⟨stf, by simpa [runIC, requestConts] using hrun, hstat⟩
    | registerEarly d =>
      obtain ⟨stf, hrun, hstat⟩ := ih (InitialConditionOp.register_downstream_early st d)
        hist (by simpa [InitialConditionOp.register_downstream_early] using hst)
      exact ⟨stf, by simpa [runIC, requestConts] using hrun, hstat⟩

/-- Claim C10: starting dormant, an initial-condition node never panics
under any sequence of requests (any continuations, any registration flags),
downstream notifications and early registrations; every request — the first
and every repeat — runs its continuation with the same `Ok((hash, read))`
value, determined by the history seen by the first request; and the status
is only ever dormant or `Done(Ok ...)` of that same value. -/
theorem initial_condition_request_idempotent (op : InitialConditionOp)
    (serialize : Nat → List Nat) (h0 : CopyHistory Nat) :
    ∀ (acts : List ICAction) (st : ICState), st.status = .dormant →
      ∃ stf hf, runIC op serialize st h0 acts =
          .ok (stf, hf, (requestConts acts).map
            (fun c => (c, InternalResult.ok (icFirstOutput op serialize h0)))) ∧
        (stf.status = ICStatus.dormant ∨
          stf.status = ICStatus.done (.ok (icFirstOutput op serialize h0))) := by
  intro acts
  induction acts with
  | nil => intro st hst; exact ⟨st, h0, rfl, Or.inl hst⟩
  | cons a rest ih =>
    intro st hst
    cases a with
    | request c flag =>
      have hstat1 : (pushDownstream
          { st with status := ICStatus.done (.ok (icFirstOutput op serialize h0)) }
          c flag).status = .done (.ok (icFirstOutput op serialize h0)) := by
        rw [pushDownstream_status]
      obtain ⟨stf, hrun, hstat⟩ := runIC_done op serialize
        (icFirstOutput op serialize h0) rest
        (pushDownstream
          { st with status := ICStatus.done (.ok (icFirstOutput op serialize h0)) }
          c flag)
        (match CopyHistory.get h0 (icOutputHash serialize op) with
         | some _ => h0
         | none => (CopyHistory.insert h0 (icOutputHash serialize op) op.value).1)
        hstat1
      refine ⟨stf,
        (match CopyHistory.get h0 (icOutputHash serialize op) with
         | some _ => h0
         | none => (CopyHistory.insert h0 (icOutputHash serialize op) op.value).1),
        ?_, Or.inr hstat⟩
      simp only [runIC, request_dormant op serialize st h0 c flag hst, hrun,
        requestConts, List.map_cons]
    | notify keeps =>
      obtain ⟨stf, hf, hrun, hstat⟩ := ih (InitialConditionOp.notify_downstreams st keeps)
        (by simpa [InitialConditionOp.notify_downstreams] using hst)
      exact ⟨stf, hf, by simpa [runIC, requestConts] using hrun, hstat⟩
    | registerEarly d =>
      obtain ⟨stf, hf, hrun, hstat⟩ := ih
        (InitialConditionOp.register_downstream_early st d)
        (by simpa [InitialConditionOp.register_downstream_early] using hst)
      exact ⟨stf, hf, by simpa [runIC, requestConts] using hrun, hstat⟩

/-- Witness for C10 at concrete inputs: two requests (a root and a node
continuation) with a notification in between; both continuations receive the
same `Ok((hash, read))`. -/
theorem initial_condition_request_idempotent_witness :
    ∃ stf hf, runIC ⟨11, 0⟩ (fun v => [v]) ICState.initial []
        [ICAction.request (.root 0) false, ICAction.notify (fun _ => true),
         ICAction.request (.node 1) true] =
        .ok (stf, hf,
          [((Continuation.root 0),
            InternalResult.ok (icFirstOutput ⟨11, 0⟩ (fun v => [v]) [])),
           ((Continuation.node 1),
            InternalResult.ok (icFirstOutput ⟨11, 0⟩ (fun v => [v]) []))]) ∧
      (stf.status = ICStatus.dormant ∨
        stf.status = ICStatus.done (.ok (icFirstOutput ⟨11, 0⟩ (fun v => [v]) []))) :=
  initial_condition_request_idempotent ⟨11, 0⟩ (fun v => [v]) []
    [ICAction.request (.root 0) false, ICAction.notify (fun _ => true),
     ICAction.request (.node 1) true] ICState.initial rfl

end Peregrine
